import Mathlib

/-!
Verification of the request-dispatch core (package dnsserver) of the
coredns-tailscale-gateway repository: the Server data model, plugin-chain
compilation in NewServer, the zone-resolution suffix walk of ServeDNS
(including DS-query deferral and the root-zone wildcard fallback), the
panic-recovery guard, and the Stop/drain lifecycle.

The embedding is a shallow one: Go structs become Lean structures, the
mutable loops of NewServer and ServeDNS become folds and structural
recursions, Go durations (int64 nanoseconds) become Int, Go maps become
association lists or update functions, and the two fallible collaborators
(EDNS validation and handler chains that may panic) become Option/Except
style data. Plugin handlers keep their behavioural surface as Lean
functions: a name, an optional MetadataCollector capability, a trace
capability flag, and a serve function that either returns a response code
or panics.
-/

namespace CoreDnsServer

/-- Durations model Go time.Duration: int64 nanoseconds. -/
abbrev Duration := Int

/-- One second, in nanoseconds (Go time.Second). -/
def second : Duration := 1000000000

/-- dns.RcodeServerFailure. -/
def RcodeServerFailure : Int := 2

/-- dns.RcodeRefused. -/
def RcodeRefused : Int := 5

/-- dns.RcodeFormatError. -/
def RcodeFormatError : Int := 1

/-- dns.RcodeNotImplemented. -/
def RcodeNotImplemented : Int := 4

/-- dns.ClassINET. -/
def ClassINET : Int := 1

/-- dns.ClassCHAOS. -/
def ClassCHAOS : Int := 3

/-- dns.TypeDS. -/
def TypeDS : Int := 43

/-- dns.TypeA. -/
def TypeA : Int := 1

/-- One entry of the question section of a dns.Msg. -/
structure Question where
  name : String
  qtype : Int
  qclass : Int
deriving DecidableEq

/-- The slice of a dns.Msg observed by the dispatch core: the question
section and whether edns.Version rejects the message (wrong EDNS version). -/
structure ReqInfo where
  questions : List Question
  badEdns : Bool
deriving DecidableEq

/-- Values stored in the request context: the view name added under ViewKey,
and opaque metadata added by MetadataCollector plugins. -/
inductive CtxVal where
  | view : String → CtxVal
  | meta : Nat → CtxVal
deriving DecidableEq

/-- The request context, most recently added value first (context.WithValue
builds an overlay chain). -/
abbrev Ctx := List CtxVal

/-- FilterFunc from the Config: a predicate over (context, request). -/
abbrev FilterFunc := Ctx → ReqInfo → Bool

/-- Result of invoking a handler chain: either a response code (the error
return of plugin.Handler.ServeDNS is discarded by the dispatch code), or a
Go panic carrying an opaque value. -/
inductive ChainOut where
  | ok : Int → ChainOut
  | panicked : Nat → ChainOut

/-- A composed plugin handler (plugin.Handler) together with its optional
capabilities: MetadataCollector (Collect), the trace capability, and its
Name(). -/
structure Handler where
  name : String
  collector : Option (Ctx → ReqInfo → Ctx)
  isTrace : Bool
  serve : Ctx → ReqInfo → ChainOut

/-- A plugin constructor (plugin.Plugin): wraps the next handler of the
chain (nil for the innermost) and yields the new outermost handler. -/
abbrev PluginCtor := Option Handler → Handler

/-- Config for a single zone block. Input fields come from configuration
parsing; pluginChain, metaCollector and registry are filled in by NewServer
(Go zero values until then). -/
structure Config where
  Zone : String
  Debug : Bool
  Stacktrace : Bool
  ReadTimeout : Duration
  WriteTimeout : Duration
  IdleTimeout : Duration
  TsigSecret : List (String × String)
  Plugin : List PluginCtor
  FilterFuncs : List FilterFunc
  ViewName : String
  pluginChain : Option Handler := none
  metaCollector : Option (Ctx → ReqInfo → Ctx) := none
  registry : List Handler := []

/-- EnableChaos: plugin names that unblock CH class queries. -/
def EnableChaos : List String := ["chaos", "forward", "proxy"]

/-- The Server struct. The zones map is an association list in insertion
order (Go map lookups are keyed, and per-key config order is append order);
dnsWg is the WaitGroup counter; tsigSecret is the merged secret map. -/
structure Server where
  Addr : String
  zones : List (String × List Config)
  dnsWg : Int
  graceTimeout : Duration
  trace : Option Handler
  debug : Bool
  stacktrace : Bool
  classChaos : Bool
  idleTimeout : Duration
  readTimeout : Duration
  writeTimeout : Duration
  tsigSecret : String → Option String

/-- Lookup in the zones association list (Go: z, ok := s.zones[k]). -/
def zonesLookup : List (String × List Config) → String → Option (List Config)
  | [], _ => none
  | (k, cs) :: rest, z => if k = z then some cs else zonesLookup rest z

/-- Append a config under a zone key
(Go: s.zones[site.Zone] = append(s.zones[site.Zone], site)). -/
def zonesAppend : List (String × List Config) → String → Config → List (String × List Config)
  | [], z, c => [(z, [c])]
  | (k, cs) :: rest, z, c =>
      if k = z then (k, cs ++ [c]) :: rest else (k, cs) :: zonesAppend rest z c

/-- Overwriting insert into the secret map (Go: s.tsigSecret[key] = secret). -/
def mapInsert (m : String → Option String) (k v : String) : String → Option String :=
  fun x => if x = k then some v else m x

/-- State threaded through the plugin-compilation loop of NewServer:
the chain built so far, the per-Config collector bookmark and handler
registry, and the server-wide trace bookmark and classChaos flag. -/
structure CompileState where
  stack : Option Handler
  metaCollector : Option (Ctx → ReqInfo → Ctx)
  registry : List Handler
  trace : Option Handler
  classChaos : Bool

/-- One iteration of the compilation loop (the body of the backwards for
loop over site.Plugin in NewServer): wrap the chain, register the handler,
bookmark the MetadataCollector (unconditional overwrite), bookmark the
trace plugin (first hit wins: guarded by s.trace == nil), and unblock CH
class queries for EnableChaos plugin names. -/
def compileStep (p : PluginCtor) (st : CompileState) : CompileState :=
  let stack := p st.stack
  { stack := some stack,
    metaCollector :=
      match stack.collector with
      | some mc => some mc
      | none => st.metaCollector,
    registry := st.registry ++ [stack],
    trace :=
      if st.trace.isNone && (stack.name = "trace" && stack.isTrace) then some stack
      else st.trace,
    classChaos := st.classChaos || EnableChaos.contains stack.name }

/-- The compilation loop: for i := len(site.Plugin)-1; i >= 0; i-- — a
right fold processes the last-registered constructor first. -/
def compilePlugins (ps : List PluginCtor) (st : CompileState) : CompileState :=
  ps.foldr compileStep st

/-- One iteration of NewServer's loop over the config group. Go appends the
site pointer to the zones map before compiling and then mutates it in
place; with value semantics we compile first and append the compiled site,
which yields the same map contents. -/
def newServerSite (s : Server) (site : Config) : Server :=
  let s1 : Server :=
    { s with
      debug := s.debug || site.Debug,
      stacktrace := site.Stacktrace,
      readTimeout := if site.ReadTimeout ≠ 0 then site.ReadTimeout else s.readTimeout,
      writeTimeout := if site.WriteTimeout ≠ 0 then site.WriteTimeout else s.writeTimeout,
      idleTimeout := if site.IdleTimeout ≠ 0 then site.IdleTimeout else s.idleTimeout,
      tsigSecret := site.TsigSecret.foldl (fun m kv => mapInsert m kv.1 kv.2) s.tsigSecret }
  let cs := compilePlugins site.Plugin
    { stack := none, metaCollector := site.metaCollector, registry := site.registry,
      trace := s1.trace, classChaos := s1.classChaos }
  let site' : Config :=
    { site with pluginChain := cs.stack, metaCollector := cs.metaCollector,
                registry := cs.registry }
  { s1 with zones := zonesAppend s1.zones site.Zone site',
            trace := cs.trace, classChaos := cs.classChaos }

/-- NewServer: defaults (graceTimeout 5s, idleTimeout 10s, readTimeout 3s,
writeTimeout 5s), the WaitGroup barrier pre-load s.dnsWg.Add(1), then the
loop over the supplied config group. -/
def NewServer (addr : String) (group : List Config) : Server :=
  group.foldl newServerSite
    { Addr := addr, zones := [], dnsWg := 1,
      graceTimeout := 5 * second, trace := none,
      debug := false, stacktrace := false, classChaos := false,
      idleTimeout := 10 * second, readTimeout := 3 * second, writeTimeout := 5 * second,
      tsigSecret := fun _ => none }

/-- Modelled from the spec: strings.ToLower (Go standard library,
external collaborator), applied per character; DNS names here are ASCII,
where the two coincide. -/
def strToLower (s : String) : String := String.mk (s.data.map Char.toLower)

/-- Number of consecutive backslash characters immediately before index i
(the inner j loop of dns.NextLabel). -/
def bsRun (s : List Char) : Nat → Nat
  | 0 => 0
  | i + 1 => if s.getD i ' ' = '\\' then bsRun s i + 1 else 0

/-- The scanning loop of dns.NextLabel, made structural with explicit fuel.
Go: for i = offset; i < len(s)-1; i++ — a dot at i that is preceded by an
even number of backslashes ends the current label and the function returns
(i+1, false); falling off the loop returns (i+1, true). Whenever
fuel ≥ len(s) (see nlAux_congr below) the fuel never runs out before the
loop bound, so this equals the Go loop for every offset. -/
def nlAux (s : List Char) : Nat → Nat → Nat × Bool
  | 0, i => (i + 1, true)
  | fuel + 1, i =>
      if i < s.length - 1 then
        if s.getD i ' ' = '.' ∧ bsRun s i % 2 = 0 then (i + 1, false)
        else nlAux s fuel (i + 1)
      else (i + 1, true)

/-- dns.NextLabel on a query name string. -/
def nextLabel (q : String) (offset : Nat) : Nat × Bool :=
  if q.data.isEmpty then (0, true) else nlAux q.data q.data.length offset

/-- The suffix q[off:] examined by the walk (Go slices bytes; DNS names
here are ASCII so char indexing coincides). -/
def suffixFrom (q : String) (off : Nat) : String :=
  String.mk (q.data.drop off)

/-- Result of processing one zone's config list in the suffix walk:
Refused (nil-chain config reached), an immediate non-DS dispatch, or fall
through to the next suffix with an updated DS candidate and context. -/
inductive ZoneStep where
  | refuse : ZoneStep
  | dispatch : Config → Ctx → ZoneStep
  | cont : Option Config → Ctx → ZoneStep

/-- passAllFilterFuncs: all filter funcs evaluate to true, short-circuit. -/
def passAllFilterFuncs (ctx : Ctx) (ffs : List FilterFunc) (req : ReqInfo) : Bool :=
  match ffs with
  | [] => true
  | ff :: rest => if ff ctx req then passAllFilterFuncs ctx rest req else false

/-- Metadata collection for one config (ServeDNS: if h.metaCollector is
non-nil, ctx = h.metaCollector.Collect(ctx, request)). -/
def collectCtx (h : Config) (ctx : Ctx) (req : ReqInfo) : Ctx :=
  match h.metaCollector with
  | some mc => mc ctx req
  | none => ctx

/-- View attachment for one config (ServeDNS: if h.ViewName is non-empty,
ctx = context.WithValue(ctx, ViewKey, h.ViewName)). -/
def viewCtx (h : Config) (ctx : Ctx) : Ctx :=
  if h.ViewName ≠ "" then CtxVal.view h.ViewName :: ctx else ctx

/-- The inner for loop of the suffix walk (ServeDNS lines over z): a
nil pluginChain refuses at once; otherwise the metadata collector enriches
the context, the filters are evaluated, and a passing config gets the view
attached and either dispatches (non-DS) or becomes the DS candidate while
the scan continues. The context updates persist across iterations (ctx is
reassigned in the enclosing Go scope). -/
def processConfigs (req : ReqInfo) (isDS : Bool) :
    List Config → Ctx → Option Config → ZoneStep
  | [], ctx, ds => .cont ds ctx
  | h :: rest, ctx, ds =>
      if h.pluginChain.isNone then .refuse
      else
        if passAllFilterFuncs (collectCtx h ctx req) h.FilterFuncs req then
          if !isDS then .dispatch h (viewCtx h (collectCtx h ctx req))
          else processConfigs req isDS rest (viewCtx h (collectCtx h ctx req)) (some h)
        else processConfigs req isDS rest (collectCtx h ctx req) ds

/-- Outcome of the suffix walk: Refused (nil-chain config), an immediate
non-DS dispatch, or end of walk carrying the DS candidate and context. -/
inductive WalkOut where
  | refused : WalkOut
  | dispatched : Config → Ctx → WalkOut
  | fellThrough : Option Config → Ctx → WalkOut

/-- The outer for loop of ServeDNS, made structural with explicit fuel:
look up the current suffix in the zones map, process its configs, then
step to the next label with dns.NextLabel and break when the end is
reached. With fuel > q.length - off the fuel never runs out before
NextLabel reports the end (offsets strictly increase and stay below
q.length; see walkAux_congr), so this equals the Go loop. -/
def walkAux (zones : List (String × List Config)) (req : ReqInfo) (isDS : Bool) (q : String) :
    Nat → Nat → Ctx → Option Config → WalkOut
  | 0, _, ctx, ds => .fellThrough ds ctx
  | fuel + 1, off, ctx, ds =>
      let step :=
        match zonesLookup zones (suffixFrom q off) with
        | some z => processConfigs req isDS z ctx ds
        | none => ZoneStep.cont ds ctx
      match step with
      | .refuse => .refused
      | .dispatch c ctx2 => .dispatched c ctx2
      | .cont ds2 ctx2 =>
          match nextLabel q off with
          | (_, true) => .fellThrough ds2 ctx2
          | (off2, false) => walkAux zones req isDS q fuel off2 ctx2 ds2

/-- The suffix walk from a given offset. The fuel q.length + 1 is adequate
for every starting offset (walkAux_congr proves fuel-irrelevance above the
bound). -/
def walk (zones : List (String × List Config)) (req : ReqInfo) (isDS : Bool) (q : String)
    (off : Nat) (ctx : Ctx) (ds : Option Config) : WalkOut :=
  walkAux zones req isDS q (q.data.length + 1) off ctx ds

/-- The root-zone wildcard fallback loop (ServeDNS, zones["."] after the
walk): a nil-chain config is skipped with continue; otherwise collect
metadata, evaluate filters, and the first passing config wins. -/
def rootFallback (req : ReqInfo) : List Config → Ctx → Option (Config × Ctx)
  | [], _ => none
  | h :: rest, ctx =>
      if h.pluginChain.isNone then rootFallback req rest ctx
      else
        if passAllFilterFuncs (collectCtx h ctx req) h.FilterFuncs req then
          some (h, viewCtx h (collectCtx h ctx req))
        else rootFallback req rest (collectCtx h ctx req)

/-- Which dispatch site of ServeDNS selected the config: an immediate
non-DS hit during the walk, the deferred DS candidate after the walk, or
the root-zone wildcard fallback. -/
inductive Dispatched where
  | walkHit
  | dsCandidate
  | rootFallback
deriving DecidableEq

/-- Routing outcome of ServeDNS after the question-section check: each
refusal keeps its code site so the claims can tell them apart. -/
inductive ResolveOut where
  | refusedClass
  | ednsError
  | refusedNilChain
  | run : Dispatched → Config → Ctx → ResolveOut
  | refusedNoMatch

/-- The admission checks and zone-resolution multiplexer of ServeDNS (the
body guarded by the recover wrapper), up to but not including the chain
invocation: class admission, EDNS version check, the lower-cased suffix
walk, the DS-candidate dispatch, and the root fallback. -/
def resolve (s : Server) (req : ReqInfo) (q0 : Question) : ResolveOut :=
  if !s.classChaos && q0.qclass ≠ ClassINET then .refusedClass
  else if req.badEdns then .ednsError
  else
    match walk s.zones req (decide (q0.qtype = TypeDS)) (strToLower q0.name) 0 [] none with
    | .refused => .refusedNilChain
    | .dispatched c ctx => .run .walkHit c ctx
    | .fellThrough ds ctx =>
        match ds with
        | some dh =>
            if q0.qtype = TypeDS ∧ dh.pluginChain.isSome then .run .dsCandidate dh ctx
            else
              match zonesLookup s.zones "." with
              | some z =>
                  match rootFallback req z ctx with
                  | some (c, ctx2) => .run .rootFallback c ctx2
                  | none => .refusedNoMatch
              | none => .refusedNoMatch
        | none =>
            match zonesLookup s.zones "." with
            | some z =>
                match rootFallback req z ctx with
                | some (c, ctx2) => .run .rootFallback c ctx2
                | none => .refusedNoMatch
            | none => .refusedNoMatch

/-- Modelled from the spec: plugin.ClientWrite (external collaborator from
the coredns plugin package) — whether the returned code indicates that the
chain already wrote a client-visible response; ServerFailure, Refused,
FormatError and NotImplemented indicate it did not. -/
def ClientWrite (rcode : Int) : Bool :=
  !(rcode = RcodeServerFailure || rcode = RcodeRefused ||
    rcode = RcodeFormatError || rcode = RcodeNotImplemented)

/-- A response written by the dispatch core itself: an error response with
a code (built by errorFunc or, when the Bool is true, errorAndMetricsFunc
which also reports to metrics), or the EDNS version-negotiation response. -/
inductive Resp where
  | rcode : Int → Bool → Resp
  | ednsVersion : Resp
deriving DecidableEq

/-- Invoke the chosen chain (the common dispatch step): a returned code
that the chain did not write for is synthesized via errorFunc; a panic
propagates as an exception. Invoking a nil chain is itself a nil-pointer
panic, matching Go. -/
def dispatchChain (c : Config) (ctx : Ctx) (req : ReqInfo) : Except Nat (List Resp) :=
  match c.pluginChain with
  | none => .error 0
  | some hch =>
      match hch.serve ctx req with
      | .ok rcode => if ClientWrite rcode then .ok [] else .ok [.rcode rcode false]
      | .panicked v => .error v

/-- Everything ServeDNS does after the question-section check (the region
wrapped by the recover defer when debug mode is off), as the list of
responses the core writes, or a propagating panic. -/
def serveBody (s : Server) (req : ReqInfo) (q0 : Question) : Except Nat (List Resp) :=
  match resolve s req q0 with
  | .refusedClass => .ok [.rcode RcodeRefused true]
  | .ednsError => .ok [.ednsVersion]
  | .refusedNilChain => .ok [.rcode RcodeRefused true]
  | .run _ c ctx => dispatchChain c ctx req
  | .refusedNoMatch => .ok [.rcode RcodeRefused true]

/-- Observable effect of one ServeDNS call: the responses written by the
core, the number of panic-counter increments, and whether a panic escaped
ServeDNS (possible only in debug mode, where the recover wrapper is not
installed). -/
structure ServeOut where
  writes : List Resp
  panicInc : Nat
  crashed : Bool
deriving DecidableEq

/-- ServeDNS: a nil message or an empty question section is answered with
ServerFailure at once; otherwise the body runs, wrapped in the panic
recovery defer unless debug mode is on. A recovered panic increments the
panic counter once and writes one ServerFailure response. -/
def ServeDNS (s : Server) (r : Option ReqInfo) : ServeOut :=
  match r with
  | none => ⟨[.rcode RcodeServerFailure true], 0, false⟩
  | some req =>
      match req.questions with
      | [] => ⟨[.rcode RcodeServerFailure true], 0, false⟩
      | q0 :: _ =>
          if s.debug then
            match serveBody s req q0 with
            | .ok ws => ⟨ws, 0, false⟩
            | .error _ => ⟨[], 0, true⟩
          else
            match serveBody s req q0 with
            | .ok ws => ⟨ws, 0, false⟩
            | .error _ => ⟨[.rcode RcodeServerFailure true], 1, false⟩

/-- The per-transport dns.Server configuration assembled by Serve and
ServePacket (the fields the dispatch core sets). -/
structure DnsSrvConf where
  net : String
  tsigSecret : String → Option String
  maxTCPQueries : Int
  readTimeout : Duration
  writeTimeout : Duration
  idleTimeout : Duration

/-- Serve: the stream (TCP) server configuration (lines s.server[tcp] = ...). -/
def Serve (s : Server) : DnsSrvConf :=
  { net := "tcp", tsigSecret := s.tsigSecret, maxTCPQueries := -1,
    readTimeout := s.readTimeout, writeTimeout := s.writeTimeout,
    idleTimeout := s.idleTimeout }

/-- ServePacket: the datagram (UDP) server configuration
(s.server[udp] = &dns.Server{..., TsigSecret: s.tsigSecret}); the Go zero
values stand for the fields ServePacket does not set. -/
def ServePacket (s : Server) : DnsSrvConf :=
  { net := "udp", tsigSecret := s.tsigSecret, maxTCPQueries := 0,
    readTimeout := 0, writeTimeout := 0, idleTimeout := 0 }

/-- The shutdown loop of Stop: err = s1.Shutdown() for every non-nil
server slot, in slot order; a slot is modelled by the error its Shutdown
call returns. -/
def shutdownLoop (servers : List (Option (Option String))) : Option String :=
  servers.foldl
    (fun err s1 =>
      match s1 with
      | none => err
      | some e => e)
    none

/-- Result of Stop: how long the drain select waited (worst case: live
connections may return their credits earlier, but the time.After arm bounds
the wait by graceTimeout), the WaitGroup counter after the single Done()
releasing the construction-time barrier credit, and the propagated
shutdown error. -/
structure StopResult where
  waited : Duration
  wgAfter : Int
  err : Option String
deriving DecidableEq

/-- Stop on a POSIX system: release the barrier credit with one Done(),
wait on the remaining credits bounded by graceTimeout (zero wait when the
counter is already zero), then shut every non-nil listener slot down. -/
def Stop (wg : Int) (grace : Duration) (servers : List (Option (Option String))) :
    StopResult :=
  let wg' := wg - 1
  { waited := if wg' = 0 then 0 else grace,
    wgAfter := wg',
    err := shutdownLoop servers }

/-! Concrete plugin constructors and configs used by witnesses and
counterexamples. -/

/-- A plugin constructor whose handler has no optional capabilities and
always returns the given response code. -/
def constHandler (nm : String) (rc : Int) : PluginCtor :=
  fun _ => { name := nm, collector := none, isTrace := false, serve := fun _ _ => .ok rc }

/-- A plugin constructor whose handler panics with the given value. -/
def panicHandler (nm : String) (v : Nat) : PluginCtor :=
  fun _ => { name := nm, collector := none, isTrace := false, serve := fun _ _ => .panicked v }

/-- A plugin constructor whose handler implements MetadataCollector,
pushing a tagged metadata value onto the context. -/
def collectorHandler (nm : String) (tag : Nat) : PluginCtor :=
  fun _ =>
    { name := nm, collector := some (fun ctx _ => CtxVal.meta tag :: ctx),
      isTrace := false, serve := fun _ _ => .ok 0 }

/-- A zone config with the given plugin list and all other inputs at their
zero values. -/
def plainSite (z : String) (ps : List PluginCtor) : Config :=
  { Zone := z, Debug := false, Stacktrace := false, ReadTimeout := 0, WriteTimeout := 0,
    IdleTimeout := 0, TsigSecret := [], Plugin := ps, FilterFuncs := [], ViewName := "" }

/-- A request with a single question and a valid EDNS version. -/
def mkReq (n : String) (ty cl : Int) : ReqInfo :=
  { questions := [⟨n, ty, cl⟩], badEdns := false }

/-! Projections of the NewServer fold. -/

theorem newServerSite_dnsWg (s : Server) (site : Config) :
    (newServerSite s site).dnsWg = s.dnsWg := rfl

theorem foldl_dnsWg (group : List Config) :
    ∀ s : Server, (group.foldl newServerSite s).dnsWg = s.dnsWg := by
  induction group with
  | nil => intro s; rfl
  | cons site rest ih => intro s; rw [List.foldl_cons, ih, newServerSite_dnsWg]

theorem newServerSite_readTimeout (s : Server) (site : Config) :
    (newServerSite s site).readTimeout =
      if site.ReadTimeout ≠ 0 then site.ReadTimeout else s.readTimeout := rfl

theorem newServerSite_writeTimeout (s : Server) (site : Config) :
    (newServerSite s site).writeTimeout =
      if site.WriteTimeout ≠ 0 then site.WriteTimeout else s.writeTimeout := rfl

theorem newServerSite_idleTimeout (s : Server) (site : Config) :
    (newServerSite s site).idleTimeout =
      if site.IdleTimeout ≠ 0 then site.IdleTimeout else s.idleTimeout := rfl

theorem foldl_readTimeout (group : List Config) :
    ∀ s : Server, (group.foldl newServerSite s).readTimeout =
      group.foldl (fun acc site => if site.ReadTimeout ≠ 0 then site.ReadTimeout else acc)
        s.readTimeout := by
  induction group with
  | nil => intro s; rfl
  | cons site rest ih =>
      intro s
      rw [List.foldl_cons, List.foldl_cons, ih, newServerSite_readTimeout]

theorem foldl_writeTimeout (group : List Config) :
    ∀ s : Server, (group.foldl newServerSite s).writeTimeout =
      group.foldl (fun acc site => if site.WriteTimeout ≠ 0 then site.WriteTimeout else acc)
        s.writeTimeout := by
  induction group with
  | nil => intro s; rfl
  | cons site rest ih =>
      intro s
      rw [List.foldl_cons, List.foldl_cons, ih, newServerSite_writeTimeout]

theorem foldl_idleTimeout (group : List Config) :
    ∀ s : Server, (group.foldl newServerSite s).idleTimeout =
      group.foldl (fun acc site => if site.IdleTimeout ≠ 0 then site.IdleTimeout else acc)
        s.idleTimeout := by
  induction group with
  | nil => intro s; rfl
  | cons site rest ih =>
      intro s
      rw [List.foldl_cons, List.foldl_cons, ih, newServerSite_idleTimeout]

/-! List helpers. -/

theorem getLast?_cons_getD {α : Type _} (l : List α) :
    ∀ a d : α, ((a :: l).getLast?).getD d = (l.getLast?).getD a := by
  induction l with
  | nil => intro a d; rfl
  | cons b t ih => intro a d; rw [List.getLast?_cons_cons, ih b d, ← ih b a]

theorem foldl_lastNonZero (l : List Duration) :
    ∀ d : Duration,
      l.foldl (fun acc t => if t ≠ 0 then t else acc) d =
        ((l.filter (fun t => t ≠ 0)).getLast?).getD d := by
  induction l with
  | nil => intro d; rfl
  | cons t rest ih =>
      intro d
      by_cases ht : t = 0
      · rw [List.foldl_cons, List.filter_cons, if_neg (by simp [ht]), if_neg (by simp [ht])]
        exact ih d
      · rw [List.foldl_cons, List.filter_cons, if_pos ht, if_pos (by simp [ht])]
        rw [ih t, getLast?_cons_getD]

/-- C4: the drain barrier dnsWg is pre-loaded with exactly one credit by
NewServer; Stop releases exactly that one credit (the request path never
touches the counter — ServeDNS is a pure function of the server and the
message); with zero prior activity the counter reaches zero and the drain
select returns without waiting, and in every case the time.After arm
bounds the wait by graceTimeout. -/
theorem c4_drain_barrier :
    (∀ (addr : String) (group : List Config), (NewServer addr group).dnsWg = 1)
    ∧ (∀ (wg : Int) (grace : Duration) (servers : List (Option (Option String))),
        (Stop wg grace servers).wgAfter = wg - 1)
    ∧ (∀ (grace : Duration) (servers : List (Option (Option String))),
        (Stop 1 grace servers).waited = 0)
    ∧ (∀ (wg : Int) (grace : Duration) (servers : List (Option (Option String))),
        0 ≤ grace → (Stop wg grace servers).waited ≤ grace) := by
  refine ⟨?_, ?_, ?_, ?_⟩
  · intro addr group; unfold NewServer; rw [foldl_dnsWg]
  · intro wg grace servers; rfl
  · intro grace servers; rfl
  · intro wg grace servers hg
    show (if wg - 1 = 0 then (0 : Duration) else grace) ≤ grace
    split
    · exact hg
    · exact le_refl grace

/-- Witness for c4_drain_barrier at graceTimeout 5s and no listeners. -/
theorem c4_witness :
    (0 : Duration) ≤ 5 * second ∧ (Stop 1 (5 * second) []).waited ≤ 5 * second :=
  ⟨by decide, c4_drain_barrier.2.2.2 1 (5 * second) [] (by decide)⟩

/-- Follows the claim's words (C5): the maximum across all configs that
specify (non-zero) the timeout, or the default when none does. -/
def maxTimeoutSpec (ts : List Duration) (d : Duration) : Duration :=
  match ts.filter (fun t => t ≠ 0) with
  | [] => d
  | t :: rest => rest.foldl max t

def c5group : List Config :=
  [{ plainSite "a." [] with
      ReadTimeout := 5 * second, WriteTimeout := 5 * second, IdleTimeout := 5 * second },
   { plainSite "b." [] with
      ReadTimeout := 3 * second, WriteTimeout := 3 * second, IdleTimeout := 3 * second }]

/-- Counterexample to C5: with two configs specifying each timeout as 5s
then 3s, NewServer ends with 3s in all three fields (the last specified
value), while the maximum across the specifying configs — the claim's
value, computed by maxTimeoutSpec over the same group — is 5s. -/
theorem c5_counterexample :
    (NewServer "dns://.:53" c5group).readTimeout = 3 * second
    ∧ (NewServer "dns://.:53" c5group).writeTimeout = 3 * second
    ∧ (NewServer "dns://.:53" c5group).idleTimeout = 3 * second
    ∧ maxTimeoutSpec (c5group.map (fun site => site.ReadTimeout)) (3 * second) = 5 * second
    ∧ maxTimeoutSpec (c5group.map (fun site => site.WriteTimeout)) (5 * second) = 5 * second
    ∧ maxTimeoutSpec (c5group.map (fun site => site.IdleTimeout)) (10 * second) = 5 * second
    ∧ (3 * second : Duration) ≠ 5 * second := by
  refine ⟨rfl, rfl, rfl, by decide, by decide, by decide, by decide⟩

/-- C5 as amended: each of readTimeout, writeTimeout and idleTimeout equals
the value of the last config in the supplied list that specifies it
(non-zero) — later configs overwrite earlier ones — or the default
(3s, 5s, 10s respectively) when no config specifies it. -/
theorem c5_last_timeout_wins :
    ∀ (addr : String) (group : List Config),
      (NewServer addr group).readTimeout =
        (((group.map (fun site => site.ReadTimeout)).filter (fun t => t ≠ 0)).getLast?).getD
          (3 * second)
      ∧ (NewServer addr group).writeTimeout =
        (((group.map (fun site => site.WriteTimeout)).filter (fun t => t ≠ 0)).getLast?).getD
          (5 * second)
      ∧ (NewServer addr group).idleTimeout =
        (((group.map (fun site => site.IdleTimeout)).filter (fun t => t ≠ 0)).getLast?).getD
          (10 * second) := by
  intro addr group
  refine ⟨?_, ?_, ?_⟩
  · unfold NewServer
    rw [foldl_readTimeout, ← foldl_lastNonZero, List.foldl_map]
  · unfold NewServer
    rw [foldl_writeTimeout, ← foldl_lastNonZero, List.foldl_map]
  · unfold NewServer
    rw [foldl_idleTimeout, ← foldl_lastNonZero, List.foldl_map]

/-- Follows the claim's words (C8): the error produced by the last slot
whose shutdown returned an error — earlier errors superseded, successful
shutdowns ignored. -/
def lastShutdownErrorSpec (servers : List (Option (Option String))) : Option String :=
  (servers.filterMap id).foldl
    (fun acc e =>
      match e with
      | some s => some s
      | none => acc)
    none

/-- Counterexample to C8: slot 0 (stream) errors and slot 1 (datagram)
shuts down cleanly; the loop's err variable is overwritten by slot 1's nil
result, so Stop returns nil, although the last slot whose shutdown
returned an error is slot 0 and the claim — computed by
lastShutdownErrorSpec on the same slots — demands its error. -/
theorem c8_counterexample :
    (Stop 1 (5 * second) [some (some "e0"), some none]).err = none
    ∧ shutdownLoop [some (some "e0"), some none] = none
    ∧ lastShutdownErrorSpec [some (some "e0"), some none] = some "e0"
    ∧ (none : Option String) ≠ some "e0" := ⟨rfl, rfl, rfl, by decide⟩

theorem shutdownLoop_go (l : List (Option (Option String))) :
    ∀ acc : Option String,
      l.foldl
        (fun err s1 =>
          match s1 with
          | none => err
          | some e => e)
        acc = ((l.filterMap id).getLast?).getD acc := by
  induction l with
  | nil => intro acc; rfl
  | cons s1 rest ih =>
      intro acc
      cases s1 with
      | none =>
          rw [List.foldl_cons]
          simpa [List.filterMap_cons] using ih acc
      | some e =>
          rw [List.foldl_cons]
          simp only [List.filterMap_cons, id]
          rw [ih e, getLast?_cons_getD]

/-- C8 as amended: Stop returns the Shutdown result of the last non-nil
listener slot — which may be nil even when an earlier slot's shutdown
errored, since the err variable is overwritten by every non-nil slot. -/
theorem c8_last_slot_shutdown_result :
    ∀ (servers : List (Option (Option String))) (wg : Int) (grace : Duration),
      (Stop wg grace servers).err = shutdownLoop servers
      ∧ shutdownLoop servers = ((servers.filterMap id).getLast?).getD none := by
  intro servers wg grace
  exact ⟨rfl, shutdownLoop_go servers none⟩

/-! TSIG secret merging (C10). -/

/-- All TSIG entries of the config group, in group order. -/
def allTsig : List Config → List (String × String)
  | [] => []
  | site :: rest => site.TsigSecret ++ allTsig rest

theorem newServerSite_tsigSecret (s : Server) (site : Config) :
    (newServerSite s site).tsigSecret =
      site.TsigSecret.foldl (fun m kv => mapInsert m kv.1 kv.2) s.tsigSecret := rfl

theorem foldl_tsigSecret (group : List Config) :
    ∀ s : Server, (group.foldl newServerSite s).tsigSecret =
      (allTsig group).foldl (fun m kv => mapInsert m kv.1 kv.2) s.tsigSecret := by
  induction group with
  | nil => intro s; rfl
  | cons site rest ih =>
      intro s
      rw [List.foldl_cons, ih, allTsig, List.foldl_append, newServerSite_tsigSecret]

theorem foldl_mapInsert_lookup (l : List (String × String)) :
    ∀ (m : String → Option String) (k : String),
      (l.foldl (fun m kv => mapInsert m kv.1 kv.2) m) k =
        l.foldl (fun acc kv => if kv.1 = k then some kv.2 else acc) (m k) := by
  induction l with
  | nil => intro m k; rfl
  | cons kv rest ih =>
      intro m k
      rw [List.foldl_cons, List.foldl_cons, ih]
      by_cases h : kv.1 = k
      · simp [mapInsert, h]
      · have h2 : ¬k = kv.1 := fun hk => h hk.symm
        simp [mapInsert, h, h2]

theorem foldl_lastWrite_find (l : List (String × String)) (k : String) :
    ∀ acc : Option String,
      l.foldl (fun acc kv => if kv.1 = k then some kv.2 else acc) acc =
        (match l.reverse.find? (fun kv => kv.1 == k) with
         | some kv => some kv.2
         | none => acc) := by
  induction l with
  | nil => intro acc; rfl
  | cons kv rest ih =>
      intro acc
      rw [List.foldl_cons, List.reverse_cons, List.find?_append,
        ih (if kv.1 = k then some kv.2 else acc)]
      cases hf : rest.reverse.find? (fun kv => kv.1 == k) with
      | some r => simp [Option.or]
      | none =>
          by_cases h : kv.1 = k
          · simp [Option.or, List.find?, h, if_pos h]
          · have hb : (kv.1 == k) = false := by simp [h]
            simp [Option.or, List.find?, hb, if_neg h]

/-- C10: the merged tsigSecret map holds, for every key, the secret of the
latest entry for that key across the supplied config list (later configs
overwrite earlier ones), and Serve and ServePacket both attach exactly
this merged map to their dns.Server configurations. -/
theorem c10_tsig_merge_last_wins :
    (∀ (addr : String) (group : List Config) (k : String),
      (NewServer addr group).tsigSecret k =
        (match (allTsig group).reverse.find? (fun kv => kv.1 == k) with
         | some kv => some kv.2
         | none => none))
    ∧ (∀ s : Server,
        (Serve s).tsigSecret = s.tsigSecret ∧ (ServePacket s).tsigSecret = s.tsigSecret) := by
  constructor
  · intro addr group k
    unfold NewServer
    rw [foldl_tsigSecret, foldl_mapInsert_lookup, foldl_lastWrite_find]
  · intro s; exact ⟨rfl, rfl⟩

/-- C3: for a request with a non-empty question section whose dispatch
body panics, outside debug mode the panic is recovered: it does not escape
ServeDNS, the panic counter is incremented exactly once, and exactly one
ServerFailure response is written; in debug mode no recovery wrapper is
installed and the panic escapes. Panics are modelled as arising from the
invoked handler chain (the spec's "panic raised inside a chain"); the
recover defer covers everything after the question-section check
identically. -/
theorem c3_panic_recovered :
    ∀ (s : Server) (req : ReqInfo) (q0 : Question) (qs : List Question) (v : Nat),
      req.questions = q0 :: qs →
      serveBody s req q0 = .error v →
      (s.debug = false →
        ServeDNS s (some req) = ⟨[.rcode RcodeServerFailure true], 1, false⟩)
      ∧ (s.debug = true → ServeDNS s (some req) = ⟨[], 0, true⟩) := by
  intro s req q0 qs v hq hb
  constructor
  · intro hd; simp [ServeDNS, hq, hd, hb]
  · intro hd; simp [ServeDNS, hq, hd, hb]

def c3site : Config := plainSite "p." [panicHandler "boom" 7]

def c3srv : Server := NewServer "dns://.:53" [c3site]

def c3req : ReqInfo := mkReq "p." TypeA ClassINET

/-- Witness for c3_panic_recovered: a one-zone server whose chain panics
with value 7 on the matching query. -/
theorem c3_witness :
    serveBody c3srv c3req ⟨"p.", TypeA, ClassINET⟩ = .error 7
    ∧ ServeDNS c3srv (some c3req) = ⟨[.rcode RcodeServerFailure true], 1, false⟩ :=
  ⟨rfl, (c3_panic_recovered c3srv c3req ⟨"p.", TypeA, ClassINET⟩ [] 7 rfl rfl).1 rfl⟩

/-! Characterization of plugin-chain compilation (C6, C7). -/

/-- The handlers built by the compilation loop, in processing order (the
loop runs from the last-registered constructor towards the first, each
wrapping the chain built so far). -/
def handlersBuilt : List PluginCtor → Option Handler → List Handler
  | [], _ => []
  | p :: rest, stk =>
      let hs := handlersBuilt rest stk
      hs ++ [p (match hs.getLast? with
                | some h => some h
                | none => stk)]

theorem compilePlugins_spec (ps : List PluginCtor) (st : CompileState) :
    (compilePlugins ps st).stack =
      (match (handlersBuilt ps st.stack).getLast? with
       | some h => some h
       | none => st.stack)
    ∧ (compilePlugins ps st).registry = st.registry ++ handlersBuilt ps st.stack
    ∧ (compilePlugins ps st).classChaos =
      (st.classChaos ||
        (handlersBuilt ps st.stack).any (fun h => EnableChaos.contains h.name))
    ∧ (compilePlugins ps st).metaCollector =
      (match (handlersBuilt ps st.stack).reverse.findSome? (fun h => h.collector) with
       | some mc => some mc
       | none => st.metaCollector) := by
  induction ps with
  | nil => exact ⟨rfl, by simp [compilePlugins, handlersBuilt], by simp [compilePlugins, handlersBuilt], rfl⟩
  | cons p rest ih =>
      obtain ⟨ihs, ihr, ihc, ihm⟩ := ih
      have hstep : compilePlugins (p :: rest) st = compileStep p (compilePlugins rest st) := rfl
      have hhb : handlersBuilt (p :: rest) st.stack =
          handlersBuilt rest st.stack ++
            [p (match (handlersBuilt rest st.stack).getLast? with
                | some h => some h
                | none => st.stack)] := rfl
      rw [hstep, hhb]
      set hs := handlersBuilt rest st.stack with hhs
      set x := p (match hs.getLast? with
                  | some h => some h
                  | none => st.stack) with hx
      have hxs : (compilePlugins rest st).stack = (match hs.getLast? with
                  | some h => some h
                  | none => st.stack) := ihs
      refine ⟨?_, ?_, ?_, ?_⟩
      · show some (p (compilePlugins rest st).stack) =
          (match (hs ++ [x]).getLast? with
           | some h => some h
           | none => st.stack)
        rw [hxs, List.getLast?_concat]
      · show (compilePlugins rest st).registry ++ [p (compilePlugins rest st).stack] =
          st.registry ++ (hs ++ [x])
        rw [ihr, hxs, List.append_assoc]
      · show ((compilePlugins rest st).classChaos ||
            EnableChaos.contains (p (compilePlugins rest st).stack).name) =
          (st.classChaos || (hs ++ [x]).any fun h => EnableChaos.contains h.name)
        rw [ihc, hxs, List.any_append, Bool.or_assoc]
        simp [List.any_cons]
      · show (match (p (compilePlugins rest st).stack).collector with
           | some mc => some mc
           | none => (compilePlugins rest st).metaCollector) =
          (match (hs ++ [x]).reverse.findSome? (fun h => h.collector) with
           | some mc => some mc
           | none => st.metaCollector)
        rw [ihm, hxs, List.reverse_append]
        simp only [List.reverse_singleton, List.singleton_append, List.findSome?_cons]
        cases hxc : x.collector with
        | some mc => rfl
        | none => rfl

theorem newServerSite_classChaos (s : Server) (site : Config) :
    (newServerSite s site).classChaos =
      (s.classChaos ||
        (handlersBuilt site.Plugin none).any (fun h => EnableChaos.contains h.name)) :=
  (compilePlugins_spec site.Plugin
    { stack := none, metaCollector := site.metaCollector, registry := site.registry,
      trace := s.trace, classChaos := s.classChaos }).2.2.1

theorem foldl_classChaos (group : List Config) :
    ∀ s : Server, (group.foldl newServerSite s).classChaos =
      (s.classChaos ||
        group.any (fun site =>
          (handlersBuilt site.Plugin none).any (fun h => EnableChaos.contains h.name))) := by
  induction group with
  | nil => intro s; simp
  | cons site rest ih =>
      intro s
      rw [List.foldl_cons, ih, newServerSite_classChaos, List.any_cons, Bool.or_assoc]

theorem resolve_refusedClass_iff (s : Server) (req : ReqInfo) (q0 : Question)
    (hc : q0.qclass ≠ ClassINET) :
    (resolve s req q0 = .refusedClass) ↔ s.classChaos = false := by
  cases hcc : s.classChaos with
  | false =>
      simp only [resolve, hcc, Bool.not_false, Bool.true_and]
      rw [if_pos (by simpa using hc)]
      exact iff_of_true rfl trivial
  | true =>
      have hne : resolve s req q0 ≠ .refusedClass := by
        unfold resolve
        simp only [hcc, Bool.not_true, Bool.false_and]
        intro h
        rw [if_neg (by simp)] at h
        repeat' split at h
        all_goals exact ResolveOut.noConfusion h
      simp [hne, hcc]

/-- C7: a query whose class is not the Internet class is refused at the
class-admission check exactly when classChaos is false — independently of
zones and of the rest of the request — and classChaos is true exactly when
some config anywhere in the supplied group built a handler whose name is
in EnableChaos. -/
theorem c7_chaos_class_admission :
    (∀ (s : Server) (req : ReqInfo) (q0 : Question), q0.qclass ≠ ClassINET →
      ((resolve s req q0 = .refusedClass) ↔ s.classChaos = false))
    ∧ (∀ (addr : String) (group : List Config),
      ((NewServer addr group).classChaos = true ↔
        ∃ site ∈ group, ∃ h ∈ handlersBuilt site.Plugin none,
          EnableChaos.contains h.name = true)) := by
  constructor
  · exact fun s req q0 hc => resolve_refusedClass_iff s req q0 hc
  · intro addr group
    unfold NewServer
    rw [foldl_classChaos]
    simp [List.any_eq_true]

def c7srv : Server := NewServer "dns://.:53" [plainSite "z." [constHandler "forward" 0]]

def c7req : ReqInfo := mkReq "q.z." TypeA ClassCHAOS

/-- Witness for c7_chaos_class_admission: a server carrying the forward
plugin (chaos-enabling) does not refuse a CHAOS-class query at the class
check. -/
theorem c7_witness :
    ((resolve c7srv c7req ⟨"q.z.", TypeA, ClassCHAOS⟩ = .refusedClass) ↔
      c7srv.classChaos = false)
    ∧ c7srv.classChaos = true :=
  ⟨c7_chaos_class_admission.1 c7srv c7req ⟨"q.z.", TypeA, ClassCHAOS⟩ (by decide), rfl⟩

theorem rootFallback_nil_skip (req : ReqInfo) (c : Config) (rest : List Config) (ctx : Ctx)
    (hnil : c.pluginChain = none) :
    rootFallback req (c :: rest) ctx = rootFallback req rest ctx := by
  show (if c.pluginChain.isNone then rootFallback req rest ctx else _) = rootFallback req rest ctx
  rw [if_pos (by rw [hnil]; rfl)]

theorem processConfigs_nil_refuse (req : ReqInfo) (isDS : Bool) (c : Config)
    (rest : List Config) (ctx : Ctx) (ds : Option Config)
    (hnil : c.pluginChain = none) :
    processConfigs req isDS (c :: rest) ctx ds = .refuse := by
  show (if c.pluginChain.isNone then ZoneStep.refuse else _) = ZoneStep.refuse
  rw [if_pos (by rw [hnil]; rfl)]

/-- C9: in the root-zone wildcard fallback a nil-chain config is silently
skipped (continue) and the remaining root configs are tried, whereas the
main suffix walk's per-zone loop refuses outright when it reaches a
nil-chain config. -/
theorem c9_root_fallback_skips_nil :
    ∀ (req : ReqInfo) (c : Config) (rest : List Config) (ctx : Ctx),
      c.pluginChain = none →
      rootFallback req (c :: rest) ctx = rootFallback req rest ctx
      ∧ ∀ (isDS : Bool) (ds : Option Config),
          processConfigs req isDS (c :: rest) ctx ds = .refuse := by
  intro req c rest ctx hnil
  exact ⟨rootFallback_nil_skip req c rest ctx hnil,
    fun isDS ds => processConfigs_nil_refuse req isDS c rest ctx ds hnil⟩

def c9nil : Config := plainSite "x." []

/-- Witness for c9_root_fallback_skips_nil: a config that never got a
chain compiled is skipped by the fallback and refuses in the walk. -/
theorem c9_witness :
    rootFallback (mkReq "y." TypeA ClassINET) [c9nil] [] =
      rootFallback (mkReq "y." TypeA ClassINET) [] []
    ∧ processConfigs (mkReq "y." TypeA ClassINET) false [c9nil] [] none = .refuse :=
  ⟨(c9_root_fallback_skips_nil (mkReq "y." TypeA ClassINET) c9nil [] [] rfl).1,
   (c9_root_fallback_skips_nil (mkReq "y." TypeA ClassINET) c9nil [] [] rfl).2 false none⟩

/-! The nil-chain refusal in the suffix walk (C2). -/

theorem processConfigs_append_cont (req : ReqInfo) (isDS : Bool) (l1 : List Config) :
    ∀ (l2 : List Config) (ctx ctx' : Ctx) (ds ds' : Option Config),
      processConfigs req isDS l1 ctx ds = .cont ds' ctx' →
      processConfigs req isDS (l1 ++ l2) ctx ds = processConfigs req isDS l2 ctx' ds' := by
  induction l1 with
  | nil =>
      intro l2 ctx ctx' ds ds' h
      cases h
      rfl
  | cons c t ih =>
      intro l2 ctx ctx' ds ds' h
      rw [List.cons_append]
      simp only [processConfigs] at h ⊢
      by_cases h1 : c.pluginChain.isNone = true
      · rw [if_pos h1] at h; exact ZoneStep.noConfusion h
      · rw [if_neg h1] at h; rw [if_neg h1]
        by_cases h2 : passAllFilterFuncs (collectCtx c ctx req) c.FilterFuncs req = true
        · rw [if_pos h2] at h; rw [if_pos h2]
          by_cases h3 : (!isDS) = true
          · rw [if_pos h3] at h; exact ZoneStep.noConfusion h
          · rw [if_neg h3] at h; rw [if_neg h3]; exact ih l2 _ ctx' _ ds' h
        · rw [if_neg h2] at h; rw [if_neg h2]; exact ih l2 _ ctx' _ ds' h

theorem walk_refuses (zones : List (String × List Config)) (req : ReqInfo) (isDS : Bool)
    (q : String) (off : Nat) (ctx : Ctx) (ds : Option Config) (z : List Config)
    (hz : zonesLookup zones (suffixFrom q off) = some z)
    (hp : processConfigs req isDS z ctx ds = .refuse) :
    walk zones req isDS q off ctx ds = .refused := by
  show walkAux zones req isDS q (q.data.length + 1) off ctx ds = .refused
  simp only [walkAux, hz, hp]

theorem resolve_of_walk_refused (s : Server) (req : ReqInfo) (q0 : Question)
    (hclass : s.classChaos = true ∨ q0.qclass = ClassINET)
    (hedns : req.badEdns = false)
    (hw : walk s.zones req (decide (q0.qtype = TypeDS)) (strToLower q0.name) 0 [] none =
      .refused) :
    resolve s req q0 = .refusedNilChain := by
  unfold resolve
  rw [if_neg (by rcases hclass with h | h <;> simp [h])]
  rw [if_neg (by simp [hedns])]
  rw [hw]


def c2xsrv : Server :=
  NewServer "dns://.:53"
    [plainSite "example.com." [constHandler "a" 0], plainSite "example.com." []]

def c2xreq : ReqInfo := mkReq "example.com." TypeA ClassINET

/-- Counterexample to C2: the zone example.com. holds a dispatching config
followed by a nil-chain config. The query for exactly that name passes the
admission checks and its suffix walk reaches the zone key at its very
first step (the first examined suffix is the whole lower-cased name), so
the claim's hypothesis holds — the Config list contains a nil-chain
Config — yet ServeDNS dispatches the earlier config from the walk and
writes no Refused response at all. -/
theorem c2_counterexample :
    ((zonesLookup c2xsrv.zones "example.com.").map
        (fun cs => cs.map (fun c => c.pluginChain.isSome))) = some [true, false]
    ∧ suffixFrom (strToLower "example.com.") 0 = "example.com."
    ∧ (match resolve c2xsrv c2xreq ⟨"example.com.", TypeA, ClassINET⟩ with
        | .run .walkHit _ _ => true
        | _ => false) = true
    ∧ ServeDNS c2xsrv (some c2xreq) = ⟨[], 0, false⟩ := ⟨rfl, rfl, rfl, rfl⟩

/-- C2 as amended: the walk refuses the moment its per-zone iteration
reaches a nil-chain config — that is, whenever the configs before it in
the same zone list all decline (their processing continues past them); the
refusal pre-empts everything that would come later: remaining configs,
shorter suffixes, the DS-candidate dispatch and the root fallback, and
ServeDNS answers Refused. -/
theorem c2_nil_chain_refuses :
    ∀ (req : ReqInfo) (isDS : Bool) (l1 l2 : List Config) (c : Config)
      (ctx ctx' : Ctx) (ds ds' : Option Config),
      c.pluginChain = none →
      processConfigs req isDS l1 ctx ds = .cont ds' ctx' →
      processConfigs req isDS (l1 ++ c :: l2) ctx ds = .refuse
      ∧ (∀ (zones : List (String × List Config)) (q : String) (off : Nat),
          zonesLookup zones (suffixFrom q off) = some (l1 ++ c :: l2) →
          walk zones req isDS q off ctx ds = .refused)
      ∧ (∀ (s : Server) (q0 : Question) (qs : List Question),
          s.classChaos = true ∨ q0.qclass = ClassINET →
          req.badEdns = false →
          req.questions = q0 :: qs →
          s.debug = false →
          isDS = decide (q0.qtype = TypeDS) →
          ctx = [] → ds = none →
          zonesLookup s.zones (suffixFrom (strToLower q0.name) 0) = some (l1 ++ c :: l2) →
          resolve s req q0 = .refusedNilChain
          ∧ ServeDNS s (some req) = ⟨[.rcode RcodeRefused true], 0, false⟩) := by
  intro req isDS l1 l2 c ctx ctx' ds ds' hnil hcont
  have hrefuse : processConfigs req isDS (l1 ++ c :: l2) ctx ds = .refuse := by
    rw [processConfigs_append_cont req isDS l1 (c :: l2) ctx ctx' ds ds' hcont]
    exact processConfigs_nil_refuse req isDS c l2 ctx' ds' hnil
  refine ⟨hrefuse, ?_, ?_⟩
  · intro zones q off hz
    exact walk_refuses zones req isDS q off ctx ds _ hz hrefuse
  · intro s q0 qs hclass hedns hq hdebug hds hctx hds0 hz
    subst hds
    subst hctx
    subst hds0
    have hw : walk s.zones req (decide (q0.qtype = TypeDS)) (strToLower q0.name) 0 [] none =
        .refused :=
      walk_refuses s.zones req _ (strToLower q0.name) 0 [] none _ hz hrefuse
    have hres : resolve s req q0 = .refusedNilChain :=
      resolve_of_walk_refused s req q0 hclass hedns hw
    refine ⟨hres, ?_⟩
    simp [ServeDNS, hq, hdebug, serveBody, hres]

def c2srv : Server := NewServer "dns://.:53" [plainSite "x." []]

def c2req : ReqInfo := mkReq "x." TypeA ClassINET

/-- Witness for c2_nil_chain_refuses: a zone declared with zero plugins
refuses its own query immediately. -/
theorem c2_witness :
    resolve c2srv c2req ⟨"x.", TypeA, ClassINET⟩ = .refusedNilChain
    ∧ ServeDNS c2srv (some c2req) = ⟨[.rcode RcodeRefused true], 0, false⟩ :=
  (c2_nil_chain_refuses c2req false [] [] (plainSite "x." []) [] [] none none rfl rfl).2.2
    c2srv ⟨"x.", TypeA, ClassINET⟩ [] (Or.inr rfl) rfl rfl rfl (by decide) rfl rfl rfl

/-! The metaCollector bookmark (C6). -/

/-- All configs stored in a zones map, in key order. -/
def allConfigs : List (String × List Config) → List Config
  | [] => []
  | (_, cs) :: rest => cs ++ allConfigs rest

theorem zonesAppend_allConfigs_mem (x c : Config) (k : String) :
    ∀ zs : List (String × List Config),
      (x ∈ allConfigs (zonesAppend zs k c) ↔ x ∈ allConfigs zs ∨ x = c) := by
  intro zs
  induction zs with
  | nil => simp [zonesAppend, allConfigs]
  | cons kc rest ih =>
      obtain ⟨k', cs⟩ := kc
      by_cases hk : k' = k
      · simp only [zonesAppend, if_pos hk, allConfigs, List.mem_append, List.mem_singleton]
        tauto
      · simp only [zonesAppend, if_neg hk, allConfigs, List.mem_append, ih]
        tauto

/-- The compiled config a NewServer iteration stores for a site, given the
server-wide trace bookmark and classChaos flag at that point. -/
def compiledSite (site : Config) (tr : Option Handler) (cc : Bool) : Config :=
  { site with
    pluginChain := (compilePlugins site.Plugin
      { stack := none, metaCollector := site.metaCollector, registry := site.registry,
        trace := tr, classChaos := cc }).stack,
    metaCollector := (compilePlugins site.Plugin
      { stack := none, metaCollector := site.metaCollector, registry := site.registry,
        trace := tr, classChaos := cc }).metaCollector,
    registry := (compilePlugins site.Plugin
      { stack := none, metaCollector := site.metaCollector, registry := site.registry,
        trace := tr, classChaos := cc }).registry }

theorem newServerSite_zones (s : Server) (site : Config) :
    (newServerSite s site).zones =
      zonesAppend s.zones site.Zone (compiledSite site s.trace s.classChaos) := rfl

theorem foldl_zones_mem (group : List Config) :
    ∀ (s : Server) (x : Config),
      x ∈ allConfigs ((group.foldl newServerSite s).zones) →
      x ∈ allConfigs s.zones ∨
        ∃ site ∈ group, ∃ tr cc, x = compiledSite site tr cc := by
  induction group with
  | nil => intro s x h; exact Or.inl h
  | cons site rest ih =>
      intro s x h
      rw [List.foldl_cons] at h
      rcases ih (newServerSite s site) x h with h' | h'
      · rw [newServerSite_zones] at h'
        rcases (zonesAppend_allConfigs_mem x _ site.Zone s.zones).mp h' with h'' | h''
        · exact Or.inl h''
        · exact Or.inr ⟨site, List.mem_cons_self site rest,
            s.trace, s.classChaos, h''⟩
      · obtain ⟨site', hmem, tr, cc, hx⟩ := h'
        exact Or.inr ⟨site', List.mem_cons_of_mem site hmem, tr, cc, hx⟩

def c6site : Config :=
  plainSite "example.org." [collectorHandler "m0" 0, collectorHandler "m1" 1]

def c6srv : Server := NewServer "dns://.:53" [c6site]

def c6applied : Ctx :=
  match zonesLookup c6srv.zones "example.org." with
  | some (c :: _) =>
      (match c.metaCollector with
       | some mc => mc [] (mkReq "example.org." TypeA ClassINET)
       | none => [])
  | _ => []

/-- Follows the claim's words (C6): the first MetadataCollector
encountered while iterating the plugin constructor list in reverse
registration order — the first collector-capability hit among the built
handlers in the compile loop's processing order, which runs from the
last-registered constructor towards the first. -/
def firstReverseCollectorSpec (ps : List PluginCtor) : Option (Ctx → ReqInfo → Ctx) :=
  (handlersBuilt ps none).findSome? (fun h => h.collector)

/-- Counterexample to C6: with two MetadataCollector plugins registered in
order m0 (tag 0) then m1 (tag 1), the claim says the first hit of the
reverse iteration — the last-registered m1, computed on the same plugin
list by firstReverseCollectorSpec, which pushes meta 1 — is bookmarked;
but the bookmark is overwritten on every hit, so the collector actually
stored in the compiled server is m0's, which pushes meta 0. -/
theorem c6_counterexample :
    c6applied = [CtxVal.meta 0]
    ∧ (match firstReverseCollectorSpec c6site.Plugin with
        | some mc => mc [] (mkReq "example.org." TypeA ClassINET)
        | none => []) = [CtxVal.meta 1]
    ∧ [CtxVal.meta 0] ≠ [CtxVal.meta 1] :=
  ⟨rfl, rfl, by decide⟩

/-- C6 as amended: the bookmarked metaCollector is the one of the
first-registered plugin whose handler implements MetadataCollector — the
last hit encountered by the reverse-order compile loop, since the bookmark
is overwritten on every hit — falling back to the config's prior field
when no handler implements it; the bookmark is a single field, so at most
one collector is bookmarked per config. handlersBuilt lists the built
handlers in processing order, so its reverse is registration order and
findSome? picks the first-registered collector. -/
theorem c6_first_registered_collector_wins :
    (∀ (ps : List PluginCtor) (st : CompileState),
      (compilePlugins ps st).metaCollector =
        (match (handlersBuilt ps st.stack).reverse.findSome? (fun h => h.collector) with
         | some mc => some mc
         | none => st.metaCollector))
    ∧ (∀ (addr : String) (group : List Config) (x : Config),
        x ∈ allConfigs ((NewServer addr group).zones) →
        ∃ site ∈ group, x.metaCollector =
          (match (handlersBuilt site.Plugin none).reverse.findSome? (fun h => h.collector) with
           | some mc => some mc
           | none => site.metaCollector)) := by
  constructor
  · exact fun ps st => (compilePlugins_spec ps st).2.2.2
  · intro addr group x hx
    rcases foldl_zones_mem group _ x hx with h | h
    · exact absurd h (by simp [allConfigs])
    · obtain ⟨site, hmem, tr, cc, hx'⟩ := h
      refine ⟨site, hmem, ?_⟩
      rw [hx']
      exact (compilePlugins_spec site.Plugin
        { stack := none, metaCollector := site.metaCollector, registry := site.registry,
          trace := tr, classChaos := cc }).2.2.2

/-- Witness for c6_first_registered_collector_wins at the concrete
two-collector server. -/
theorem c6_witness :
    ∃ site ∈ [c6site],
      (compiledSite c6site none false).metaCollector =
        (match (handlersBuilt site.Plugin none).reverse.findSome? (fun h => h.collector) with
         | some mc => some mc
         | none => site.metaCollector) :=
  c6_first_registered_collector_wins.2 "dns://.:53" [c6site]
    (compiledSite c6site none false)
    (by show compiledSite c6site none false ∈ [compiledSite c6site none false]
        exact List.mem_singleton.mpr rfl)

/-! The suffix walk visits strictly increasing offsets (C1). -/

theorem nlAux_lt (s : List Char) :
    ∀ (fuel i o : Nat), nlAux s fuel i = (o, false) → i < o ∧ o < s.length := by
  intro fuel
  induction fuel with
  | zero => intro i o h; exact absurd h (by simp [nlAux])
  | succ f ih =>
      intro i o h
      simp only [nlAux] at h
      by_cases h1 : i < s.length - 1
      · rw [if_pos h1] at h
        by_cases h2 : s.getD i ' ' = '.' ∧ bsRun s i % 2 = 0
        · rw [if_pos h2] at h
          injection h with ho hb
          omega
        · rw [if_neg h2] at h
          have := ih (i + 1) o h
          omega
      · rw [if_neg h1] at h
        injection h with ho hb
        exact absurd hb (by simp)

theorem nextLabel_lt (q : String) (off off2 : Nat)
    (h : nextLabel q off = (off2, false)) : off < off2 ∧ off2 < q.data.length := by
  unfold nextLabel at h
  by_cases he : q.data.isEmpty
  · rw [if_pos he] at h
    injection h with ho hb
    exact absurd hb (by simp)
  · rw [if_neg he] at h
    exact nlAux_lt q.data _ off off2 h

/-- Any two fuels above the remaining name length give the same walk: the
fuel never runs out before dns.NextLabel reports the end, so the fuel
q.length + 1 used by walk reproduces the Go loop exactly. -/
theorem walkAux_congr (zones : List (String × List Config)) (req : ReqInfo) (isDS : Bool)
    (q : String) :
    ∀ (fuel fuel' off : Nat) (ctx : Ctx) (ds : Option Config),
      q.data.length - off < fuel → q.data.length - off < fuel' →
      walkAux zones req isDS q fuel off ctx ds = walkAux zones req isDS q fuel' off ctx ds := by
  intro fuel
  induction fuel with
  | zero => intro fuel' off ctx ds h _; exact absurd h (Nat.not_lt_zero _)
  | succ f ih =>
      intro fuel' off ctx ds h h'
      cases fuel' with
      | zero => exact absurd h' (Nat.not_lt_zero _)
      | succ f' =>
          simp only [walkAux]
          cases hz : zonesLookup zones (suffixFrom q off) with
          | none =>
              dsimp only
              cases hnl : nextLabel q off with
              | mk off2 b =>
                  cases b with
                  | false =>
                      obtain ⟨hlt, hup⟩ := nextLabel_lt q off off2 hnl
                      exact ih f' off2 ctx ds (by omega) (by omega)
                  | true => rfl
          | some z =>
              dsimp only
              cases hp : processConfigs req isDS z ctx ds with
              | refuse => rfl
              | dispatch c ctx2 => rfl
              | cont ds2 ctx2 =>
                  cases hnl : nextLabel q off with
                  | mk off2 b =>
                      cases b with
                      | false =>
                          obtain ⟨hlt, hup⟩ := nextLabel_lt q off off2 hnl
                          exact ih f' off2 ctx2 ds2 (by omega) (by omega)
                      | true => rfl

/-- processConfigs instrumented with the list of configs that passed their
filters (in iteration order); the first component coincides with
processConfigs (processConfigsEv_fst). -/
def processConfigsEv (req : ReqInfo) (isDS : Bool) :
    List Config → Ctx → Option Config → ZoneStep × List Config
  | [], ctx, ds => (.cont ds ctx, [])
  | h :: rest, ctx, ds =>
      if h.pluginChain.isNone then (.refuse, [])
      else
        if passAllFilterFuncs (collectCtx h ctx req) h.FilterFuncs req then
          if !isDS then (.dispatch h (viewCtx h (collectCtx h ctx req)), [h])
          else
            ((processConfigsEv req isDS rest (viewCtx h (collectCtx h ctx req)) (some h)).1,
             h :: (processConfigsEv req isDS rest (viewCtx h (collectCtx h ctx req)) (some h)).2)
        else processConfigsEv req isDS rest (collectCtx h ctx req) ds

theorem processConfigsEv_fst (req : ReqInfo) (isDS : Bool) :
    ∀ (l : List Config) (ctx : Ctx) (ds : Option Config),
      (processConfigsEv req isDS l ctx ds).1 = processConfigs req isDS l ctx ds := by
  intro l
  induction l with
  | nil => intro ctx ds; rfl
  | cons h rest ih =>
      intro ctx ds
      simp only [processConfigsEv, processConfigs]
      by_cases h1 : h.pluginChain.isNone = true
      · rw [if_pos h1, if_pos h1]
      · rw [if_neg h1, if_neg h1]
        by_cases h2 : passAllFilterFuncs (collectCtx h ctx req) h.FilterFuncs req = true
        · rw [if_pos h2, if_pos h2]
          by_cases h3 : (!isDS) = true
          · rw [if_pos h3, if_pos h3]
          · rw [if_neg h3, if_neg h3]; exact ih _ _
        · rw [if_neg h2, if_neg h2]; exact ih _ _

theorem processConfigsEv_mem (req : ReqInfo) (isDS : Bool) :
    ∀ (l : List Config) (ctx : Ctx) (ds : Option Config) (c : Config),
      c ∈ (processConfigsEv req isDS l ctx ds).2 →
      c ∈ l ∧ c.pluginChain.isSome = true := by
  intro l
  induction l with
  | nil => intro ctx ds c h; exact absurd h (by simp [processConfigsEv])
  | cons h rest ih =>
      intro ctx ds c hc
      simp only [processConfigsEv] at hc
      by_cases h1 : h.pluginChain.isNone = true
      · rw [if_pos h1] at hc; exact absurd hc (by simp)
      · rw [if_neg h1] at hc
        by_cases h2 : passAllFilterFuncs (collectCtx h ctx req) h.FilterFuncs req = true
        · rw [if_pos h2] at hc
          by_cases h3 : (!isDS) = true
          · rw [if_pos h3] at hc
            rw [List.mem_singleton.mp hc]
            exact ⟨List.mem_cons_self h rest, by
              cases hh : h.pluginChain with
              | none => rw [hh] at h1; exact absurd rfl h1
              | some v => rfl⟩
          · rw [if_neg h3] at hc
            rcases List.mem_cons.mp hc with hc' | hc'
            · rw [hc']
              exact ⟨List.mem_cons_self h rest, by
                cases hh : h.pluginChain with
                | none => rw [hh] at h1; exact absurd rfl h1
                | some v => rfl⟩
            · obtain ⟨hm, hs⟩ := ih _ _ c hc'
              exact ⟨List.mem_cons_of_mem h hm, hs⟩
        · rw [if_neg h2] at hc
          obtain ⟨hm, hs⟩ := ih _ _ c hc
          exact ⟨List.mem_cons_of_mem h hm, hs⟩

theorem processConfigsEv_nonDS_dispatch (req : ReqInfo) :
    ∀ (l : List Config) (ctx : Ctx) (ds : Option Config) (c : Config) (ctx2 : Ctx),
      (processConfigsEv req false l ctx ds).1 = .dispatch c ctx2 →
      (processConfigsEv req false l ctx ds).2 = [c] := by
  intro l
  induction l with
  | nil => intro ctx ds c ctx2 h; exact absurd h (by simp [processConfigsEv])
  | cons h rest ih =>
      intro ctx ds c ctx2 hd
      simp only [processConfigsEv] at hd ⊢
      by_cases h1 : h.pluginChain.isNone = true
      · rw [if_pos h1] at hd; exact ZoneStep.noConfusion hd
      · rw [if_neg h1] at hd; rw [if_neg h1]
        by_cases h2 : passAllFilterFuncs (collectCtx h ctx req) h.FilterFuncs req = true
        · rw [if_pos h2] at hd; rw [if_pos h2]
          rw [if_pos (by decide : (!false) = true)] at hd
          rw [if_pos (by decide : (!false) = true)]
          injection hd with hc _
          rw [hc]
        · rw [if_neg h2] at hd; rw [if_neg h2]
          exact ih _ _ c ctx2 hd

theorem processConfigsEv_nonDS_cont (req : ReqInfo) :
    ∀ (l : List Config) (ctx : Ctx) (ds : Option Config) (ds2 : Option Config) (ctx2 : Ctx),
      (processConfigsEv req false l ctx ds).1 = .cont ds2 ctx2 →
      (processConfigsEv req false l ctx ds).2 = [] ∧ ds2 = ds := by
  intro l
  induction l with
  | nil =>
      intro ctx ds ds2 ctx2 h
      simp only [processConfigsEv] at h
      injection h with h1 _
      exact ⟨rfl, h1.symm⟩
  | cons h rest ih =>
      intro ctx ds ds2 ctx2 hd
      simp only [processConfigsEv] at hd ⊢
      by_cases h1 : h.pluginChain.isNone = true
      · rw [if_pos h1] at hd; exact ZoneStep.noConfusion hd
      · rw [if_neg h1] at hd; rw [if_neg h1]
        by_cases h2 : passAllFilterFuncs (collectCtx h ctx req) h.FilterFuncs req = true
        · rw [if_pos h2] at hd
          rw [if_pos (by decide : (!false) = true)] at hd
          exact ZoneStep.noConfusion hd
        · rw [if_neg h2] at hd; rw [if_neg h2]
          exact ih _ _ ds2 ctx2 hd

theorem processConfigs_DS_no_dispatch (req : ReqInfo) :
    ∀ (l : List Config) (ctx : Ctx) (ds : Option Config) (c : Config) (ctx2 : Ctx),
      processConfigs req true l ctx ds = .dispatch c ctx2 → False := by
  intro l
  induction l with
  | nil => intro ctx ds c ctx2 h; exact ZoneStep.noConfusion h
  | cons h rest ih =>
      intro ctx ds c ctx2 hd
      simp only [processConfigs] at hd
      by_cases h1 : h.pluginChain.isNone = true
      · rw [if_pos h1] at hd; exact ZoneStep.noConfusion hd
      · rw [if_neg h1] at hd
        by_cases h2 : passAllFilterFuncs (collectCtx h ctx req) h.FilterFuncs req = true
        · rw [if_pos h2] at hd
          rw [if_neg (by simp)] at hd
          exact ih _ _ c ctx2 hd
        · rw [if_neg h2] at hd
          exact ih _ _ c ctx2 hd

theorem processConfigsEv_DS_cont (req : ReqInfo) :
    ∀ (l : List Config) (ctx : Ctx) (ds : Option Config) (ds2 : Option Config) (ctx2 : Ctx),
      (processConfigsEv req true l ctx ds).1 = .cont ds2 ctx2 →
      ds2 = (match (processConfigsEv req true l ctx ds).2.getLast? with
             | some c => some c
             | none => ds) := by
  intro l
  induction l with
  | nil =>
      intro ctx ds ds2 ctx2 h
      simp only [processConfigsEv] at h ⊢
      injection h with h1 _
      exact h1.symm
  | cons h rest ih =>
      intro ctx ds ds2 ctx2 hd
      simp only [processConfigsEv] at hd ⊢
      by_cases h1 : h.pluginChain.isNone = true
      · rw [if_pos h1] at hd; exact ZoneStep.noConfusion hd
      · rw [if_neg h1] at hd; rw [if_neg h1]
        by_cases h2 : passAllFilterFuncs (collectCtx h ctx req) h.FilterFuncs req = true
        · rw [if_pos h2] at hd; rw [if_pos h2]
          rw [if_neg (by simp)] at hd
          rw [if_neg (by simp)]
          have := ih _ _ ds2 ctx2 hd
          rw [this]
          cases hl : (processConfigsEv req true rest
              (viewCtx h (collectCtx h ctx req)) (some h)).2 with
          | nil => rfl
          | cons e t =>
              rw [List.getLast?_cons_cons]
              cases hg : (e :: t).getLast? with
              | none =>
                  have hs := List.getLast?_isSome.mpr (List.cons_ne_nil e t)
                  rw [hg] at hs
                  exact absurd hs (by simp)
              | some x => rfl
        · rw [if_neg h2] at hd; rw [if_neg h2]
          exact ih _ _ ds2 ctx2 hd

/-- walkAux instrumented with the passing matches it sees, as
(offset, config) pairs in visit order; the first component coincides with
walkAux (walkAuxEv_fst). -/
def walkAuxEv (zones : List (String × List Config)) (req : ReqInfo) (isDS : Bool) (q : String) :
    Nat → Nat → Ctx → Option Config → WalkOut × List (Nat × Config)
  | 0, _, ctx, ds => (.fellThrough ds ctx, [])
  | fuel + 1, off, ctx, ds =>
      match (match zonesLookup zones (suffixFrom q off) with
             | some z => processConfigsEv req isDS z ctx ds
             | none => (ZoneStep.cont ds ctx, [])) with
      | (.refuse, es) => (.refused, es.map (fun c => (off, c)))
      | (.dispatch c ctx2, es) => (.dispatched c ctx2, es.map (fun c => (off, c)))
      | (.cont ds2 ctx2, es) =>
          match nextLabel q off with
          | (_, true) => (.fellThrough ds2 ctx2, es.map (fun c => (off, c)))
          | (off2, false) =>
              ((walkAuxEv zones req isDS q fuel off2 ctx2 ds2).1,
               es.map (fun c => (off, c)) ++ (walkAuxEv zones req isDS q fuel off2 ctx2 ds2).2)

/-- The instrumented walk at the same fuel as walk. -/
def walkEv (zones : List (String × List Config)) (req : ReqInfo) (isDS : Bool) (q : String)
    (off : Nat) (ctx : Ctx) (ds : Option Config) : WalkOut × List (Nat × Config) :=
  walkAuxEv zones req isDS q (q.data.length + 1) off ctx ds

theorem pairwise_of_total {α : Type _} (r : α → α → Prop) (hr : ∀ a b, r a b) :
    ∀ l : List α, l.Pairwise r := by
  intro l
  induction l with
  | nil => exact List.Pairwise.nil
  | cons a t ih => exact List.Pairwise.cons (fun b _ => hr a b) ih

theorem mem_map_off {e : Nat × Config} {l : List Config} {off : Nat}
    (h : e ∈ l.map (fun c => (off, c))) : e.1 = off ∧ e.2 ∈ l := by
  rcases List.mem_map.mp h with ⟨c, hc, he⟩
  rw [← he]
  exact ⟨rfl, hc⟩

theorem getLast?_map {α β : Type _} (f : α → β) :
    ∀ l : List α, (l.map f).getLast? = (l.getLast?).map f := by
  intro l
  induction l with
  | nil => rfl
  | cons a t ih =>
      cases t with
      | nil => rfl
      | cons b t' =>
          rw [List.map_cons, List.map_cons, List.getLast?_cons_cons, List.getLast?_cons_cons]
          rw [List.map_cons] at ih
          exact ih

theorem getLast?_append_right {α : Type _} (l1 : List α) :
    ∀ l2 : List α, l2 ≠ [] → (l1 ++ l2).getLast? = l2.getLast? := by
  induction l1 with
  | nil => intro l2 _; rfl
  | cons a t ih =>
      intro l2 h2
      rw [List.cons_append]
      cases hc : t ++ l2 with
      | nil => exact absurd (List.append_eq_nil.mp hc).2 h2
      | cons b u =>
          have := ih l2 h2
          rw [hc] at this
          rw [List.getLast?_cons_cons]
          exact this

theorem walkAuxEv_fst (zones : List (String × List Config)) (req : ReqInfo) (isDS : Bool)
    (q : String) :
    ∀ (fuel off : Nat) (ctx : Ctx) (ds : Option Config),
      (walkAuxEv zones req isDS q fuel off ctx ds).1 =
        walkAux zones req isDS q fuel off ctx ds := by
  intro fuel
  induction fuel with
  | zero => intro off ctx ds; rfl
  | succ f ih =>
      intro off ctx ds
      simp only [walkAuxEv, walkAux]
      cases hz : zonesLookup zones (suffixFrom q off) with
      | none =>
          dsimp only
          cases hnl : nextLabel q off with
          | mk off2 b =>
              cases b with
              | false => exact ih off2 ctx ds
              | true => rfl
      | some z =>
          dsimp only
          have hfst := processConfigsEv_fst req isDS z ctx ds
          cases hpe : processConfigsEv req isDS z ctx ds with
          | mk st es =>
              rw [hpe] at hfst
              have hfst' : st = processConfigs req isDS z ctx ds := hfst
              rw [← hfst']
              cases st with
              | refuse => rfl
              | dispatch c ctx2 => rfl
              | cont ds2 ctx2 =>
                  cases hnl : nextLabel q off with
                  | mk off2 b =>
                      cases b with
                      | false => exact ih off2 ctx2 ds2
                      | true => rfl

theorem walkAuxEv_mem (zones : List (String × List Config)) (req : ReqInfo) (isDS : Bool)
    (q : String) :
    ∀ (fuel off : Nat) (ctx : Ctx) (ds : Option Config) (e : Nat × Config),
      e ∈ (walkAuxEv zones req isDS q fuel off ctx ds).2 →
      off ≤ e.1 ∧ ∃ z, zonesLookup zones (suffixFrom q e.1) = some z ∧ e.2 ∈ z
        ∧ e.2.pluginChain.isSome = true := by
  intro fuel
  induction fuel with
  | zero => intro off ctx ds e he; exact absurd he (by simp [walkAuxEv])
  | succ f ih =>
      intro off ctx ds e he
      simp only [walkAuxEv] at he
      cases hz : zonesLookup zones (suffixFrom q off) with
      | none =>
          rw [hz] at he
          dsimp only at he
          cases hnl : nextLabel q off with
          | mk off2 b =>
              rw [hnl] at he
              cases b with
              | true => exact absurd he (by simp)
              | false =>
                  obtain ⟨h1, h2⟩ := ih off2 ctx ds e (by simpa using he)
                  obtain ⟨hlt, -⟩ := nextLabel_lt q off off2 hnl
                  exact ⟨by omega, h2⟩
      | some z =>
          rw [hz] at he
          dsimp only at he
          cases hpe : processConfigsEv req isDS z ctx ds with
          | mk st es =>
              rw [hpe] at he
              have hes : ∀ c ∈ es, c ∈ z ∧ c.pluginChain.isSome = true := by
                intro c hc
                exact processConfigsEv_mem req isDS z ctx ds c (by rw [hpe]; exact hc)
              have hloc : ∀ e' ∈ es.map (fun c => (off, c)),
                  off ≤ e'.1 ∧ ∃ z', zonesLookup zones (suffixFrom q e'.1) = some z'
                    ∧ e'.2 ∈ z' ∧ e'.2.pluginChain.isSome = true := by
                intro e' he'
                obtain ⟨h1, h2⟩ := mem_map_off he'
                exact ⟨le_of_eq h1.symm, z, by rw [h1]; exact hz,
                  (hes e'.2 h2).1, (hes e'.2 h2).2⟩
              cases st with
              | refuse => exact hloc e (by simpa using he)
              | dispatch c ctx2 => exact hloc e (by simpa using he)
              | cont ds2 ctx2 =>
                  dsimp only at he
                  cases hnl : nextLabel q off with
                  | mk off2 b =>
                      rw [hnl] at he
                      cases b with
                      | true => exact hloc e (by simpa using he)
                      | false =>
                          dsimp only at he
                          rcases List.mem_append.mp he with he' | he'
                          · exact hloc e he'
                          · obtain ⟨h1, h2⟩ := ih off2 ctx2 ds2 e he'
                            obtain ⟨hlt, -⟩ := nextLabel_lt q off off2 hnl
                            exact ⟨by omega, h2⟩

theorem walkAuxEv_sorted (zones : List (String × List Config)) (req : ReqInfo) (isDS : Bool)
    (q : String) :
    ∀ (fuel off : Nat) (ctx : Ctx) (ds : Option Config),
      List.Pairwise (fun a b => a.1 ≤ b.1) (walkAuxEv zones req isDS q fuel off ctx ds).2 := by
  intro fuel
  induction fuel with
  | zero => intro off ctx ds; simp [walkAuxEv]
  | succ f ih =>
      intro off ctx ds
      have hmapPW : ∀ (es : List Config),
          List.Pairwise (fun a b : Nat × Config => a.1 ≤ b.1)
            (es.map (fun c => (off, c))) := by
        intro es
        exact List.pairwise_map.mpr
          (pairwise_of_total _ (fun a b => le_refl off) es)
      simp only [walkAuxEv]
      cases hz : zonesLookup zones (suffixFrom q off) with
      | none =>
          dsimp only
          cases hnl : nextLabel q off with
          | mk off2 b =>
              cases b with
              | true => exact List.Pairwise.nil
              | false => simpa using ih off2 ctx ds
      | some z =>
          dsimp only
          cases hpe : processConfigsEv req isDS z ctx ds with
          | mk st es =>
              cases st with
              | refuse => exact hmapPW es
              | dispatch c ctx2 => exact hmapPW es
              | cont ds2 ctx2 =>
                  dsimp only
                  cases hnl : nextLabel q off with
                  | mk off2 b =>
                      cases b with
                      | true => exact hmapPW es
                      | false =>
                          show List.Pairwise (fun a b => a.1 ≤ b.1)
                            (es.map (fun c => (off, c)) ++
                              (walkAuxEv zones req isDS q f off2 ctx2 ds2).2)
                          refine List.pairwise_append.mpr ⟨hmapPW es, ih off2 ctx2 ds2, ?_⟩
                          intro a ha b hb
                          obtain ⟨ha1, -⟩ := mem_map_off ha
                          obtain ⟨hb1, -⟩ := walkAuxEv_mem zones req isDS q f off2 ctx2 ds2 b hb
                          obtain ⟨hlt, -⟩ := nextLabel_lt q off off2 hnl
                          omega

theorem walkAuxEv_nonDS_dispatch (zones : List (String × List Config)) (req : ReqInfo)
    (q : String) :
    ∀ (fuel off : Nat) (ctx : Ctx) (ds : Option Config) (c : Config) (ctx2 : Ctx),
      (walkAuxEv zones req false q fuel off ctx ds).1 = .dispatched c ctx2 →
      (walkAuxEv zones req false q fuel off ctx ds).2.map Prod.snd = [c] := by
  intro fuel
  induction fuel with
  | zero => intro off ctx ds c ctx2 h; exact WalkOut.noConfusion h
  | succ f ih =>
      intro off ctx ds c ctx2 h
      cases hz : zonesLookup zones (suffixFrom q off) with
      | none =>
          simp only [walkAuxEv, hz] at h ⊢
          obtain ⟨off2, b, hnl⟩ : ∃ o bb, nextLabel q off = (o, bb) := ⟨_, _, rfl⟩
          rw [hnl] at h ⊢
          cases b with
          | true => exact WalkOut.noConfusion h
          | false =>
              show List.map Prod.snd
                (List.map (fun c => (off, c)) [] ++
                  (walkAuxEv zones req false q f off2 ctx ds).2) = [c]
              simpa using ih off2 ctx ds c ctx2 h
      | some z =>
          simp only [walkAuxEv, hz] at h ⊢
          obtain ⟨st, es, hpe⟩ : ∃ st es, processConfigsEv req false z ctx ds = (st, es) :=
            ⟨_, _, rfl⟩
          rw [hpe] at h ⊢
          cases st with
          | refuse => exact WalkOut.noConfusion h
          | dispatch c' ctx2' =>
              injection h with hc hctx
              have hes : es = [c'] := by
                have := processConfigsEv_nonDS_dispatch req z ctx ds c' ctx2'
                  (by rw [hpe])
                rw [hpe] at this
                exact this
              show List.map Prod.snd (List.map (fun c => (off, c)) es) = [c]
              rw [hes, hc]
              rfl
          | cont ds2 ctx2' =>
              have hes : es = [] ∧ ds2 = ds := by
                have := processConfigsEv_nonDS_cont req z ctx ds ds2 ctx2' (by rw [hpe])
                rw [hpe] at this
                exact this
              obtain ⟨off2, b, hnl⟩ : ∃ o bb, nextLabel q off = (o, bb) := ⟨_, _, rfl⟩
              rw [hnl] at h ⊢
              cases b with
              | true => exact WalkOut.noConfusion h
              | false =>
                  show List.map Prod.snd
                    (List.map (fun c => (off, c)) es ++
                      (walkAuxEv zones req false q f off2 ctx2' ds2).2) = [c]
                  rw [hes.1]
                  simpa using ih off2 ctx2' ds2 c ctx2 h

theorem walkAuxEv_nonDS_fellThrough (zones : List (String × List Config)) (req : ReqInfo)
    (q : String) :
    ∀ (fuel off : Nat) (ctx : Ctx) (ds : Option Config) (dsf : Option Config) (ctxf : Ctx),
      (walkAuxEv zones req false q fuel off ctx ds).1 = .fellThrough dsf ctxf →
      (walkAuxEv zones req false q fuel off ctx ds).2 = [] ∧ dsf = ds := by
  intro fuel
  induction fuel with
  | zero =>
      intro off ctx ds dsf ctxf h
      injection h with h1 _
      exact ⟨rfl, h1.symm⟩
  | succ f ih =>
      intro off ctx ds dsf ctxf h
      cases hz : zonesLookup zones (suffixFrom q off) with
      | none =>
          simp only [walkAuxEv, hz] at h ⊢
          obtain ⟨off2, b, hnl⟩ : ∃ o bb, nextLabel q off = (o, bb) := ⟨_, _, rfl⟩
          rw [hnl] at h ⊢
          cases b with
          | true =>
              injection h with h1 _
              exact ⟨rfl, h1.symm⟩
          | false =>
              obtain ⟨h1, h2⟩ := ih off2 ctx ds dsf ctxf h
              refine ⟨?_, h2⟩
              show List.map (fun c => (off, c)) [] ++
                (walkAuxEv zones req false q f off2 ctx ds).2 = []
              rw [h1]
              rfl
      | some z =>
          simp only [walkAuxEv, hz] at h ⊢
          obtain ⟨st, es, hpe⟩ : ∃ st es, processConfigsEv req false z ctx ds = (st, es) :=
            ⟨_, _, rfl⟩
          rw [hpe] at h ⊢
          cases st with
          | refuse => exact WalkOut.noConfusion h
          | dispatch c' ctx2' => exact WalkOut.noConfusion h
          | cont ds2 ctx2' =>
              have hes : es = [] ∧ ds2 = ds := by
                have := processConfigsEv_nonDS_cont req z ctx ds ds2 ctx2' (by rw [hpe])
                rw [hpe] at this
                exact this
              obtain ⟨off2, b, hnl⟩ : ∃ o bb, nextLabel q off = (o, bb) := ⟨_, _, rfl⟩
              rw [hnl] at h ⊢
              cases b with
              | true =>
                  injection h with h1 _
                  refine ⟨?_, h1.symm.trans hes.2⟩
                  show List.map (fun c => (off, c)) es = []
                  rw [hes.1]
                  rfl
              | false =>
                  obtain ⟨h1, h2⟩ := ih off2 ctx2' ds2 dsf ctxf h
                  refine ⟨?_, h2.trans hes.2⟩
                  show List.map (fun c => (off, c)) es ++
                    (walkAuxEv zones req false q f off2 ctx2' ds2).2 = []
                  rw [hes.1, h1]
                  rfl

theorem walkAuxEv_DS_no_dispatch (zones : List (String × List Config)) (req : ReqInfo)
    (q : String) :
    ∀ (fuel off : Nat) (ctx : Ctx) (ds : Option Config) (c : Config) (ctx2 : Ctx),
      (walkAuxEv zones req true q fuel off ctx ds).1 = .dispatched c ctx2 → False := by
  intro fuel
  induction fuel with
  | zero => intro off ctx ds c ctx2 h; exact WalkOut.noConfusion h
  | succ f ih =>
      intro off ctx ds c ctx2 h
      cases hz : zonesLookup zones (suffixFrom q off) with
      | none =>
          simp only [walkAuxEv, hz] at h
          obtain ⟨off2, b, hnl⟩ : ∃ o bb, nextLabel q off = (o, bb) := ⟨_, _, rfl⟩
          rw [hnl] at h
          cases b with
          | true => exact WalkOut.noConfusion h
          | false => exact ih off2 ctx ds c ctx2 h
      | some z =>
          simp only [walkAuxEv, hz] at h
          obtain ⟨st, es, hpe⟩ : ∃ st es, processConfigsEv req true z ctx ds = (st, es) :=
            ⟨_, _, rfl⟩
          rw [hpe] at h
          cases st with
          | refuse => exact WalkOut.noConfusion h
          | dispatch c' ctx2' =>
              have hpc : processConfigs req true z ctx ds = .dispatch c' ctx2' := by
                rw [← processConfigsEv_fst req true z ctx ds, hpe]
              exact processConfigs_DS_no_dispatch req z ctx ds c' ctx2' hpc
          | cont ds2 ctx2' =>
              obtain ⟨off2, b, hnl⟩ : ∃ o bb, nextLabel q off = (o, bb) := ⟨_, _, rfl⟩
              rw [hnl] at h
              cases b with
              | true => exact WalkOut.noConfusion h
              | false => exact ih off2 ctx2' ds2 c ctx2 h

theorem walkAuxEv_DS_fellThrough (zones : List (String × List Config)) (req : ReqInfo)
    (q : String) :
    ∀ (fuel off : Nat) (ctx : Ctx) (ds : Option Config) (dsf : Option Config) (ctxf : Ctx),
      (walkAuxEv zones req true q fuel off ctx ds).1 = .fellThrough dsf ctxf →
      dsf = (match (walkAuxEv zones req true q fuel off ctx ds).2.getLast? with
             | some e => some e.2
             | none => ds) := by
  intro fuel
  induction fuel with
  | zero =>
      intro off ctx ds dsf ctxf h
      injection h with h1 _
      exact h1.symm
  | succ f ih =>
      intro off ctx ds dsf ctxf h
      cases hz : zonesLookup zones (suffixFrom q off) with
      | none =>
          simp only [walkAuxEv, hz] at h ⊢
          obtain ⟨off2, b, hnl⟩ : ∃ o bb, nextLabel q off = (o, bb) := ⟨_, _, rfl⟩
          rw [hnl] at h ⊢
          cases b with
          | true =>
              injection h with h1 _
              exact h1.symm
          | false =>
              show dsf = (match (List.map (fun c => (off, c)) [] ++
                  (walkAuxEv zones req true q f off2 ctx ds).2).getLast? with
                | some e => some e.2
                | none => ds)
              simpa using ih off2 ctx ds dsf ctxf h
      | some z =>
          simp only [walkAuxEv, hz] at h ⊢
          obtain ⟨st, es, hpe⟩ : ∃ st es, processConfigsEv req true z ctx ds = (st, es) :=
            ⟨_, _, rfl⟩
          rw [hpe] at h ⊢
          cases st with
          | refuse => exact WalkOut.noConfusion h
          | dispatch c' ctx2' => exact WalkOut.noConfusion h
          | cont ds2 ctx2' =>
              have hds2 : ds2 = (match es.getLast? with
                  | some c => some c
                  | none => ds) := by
                have := processConfigsEv_DS_cont req z ctx ds ds2 ctx2' (by rw [hpe])
                rw [hpe] at this
                exact this
              obtain ⟨off2, b, hnl⟩ : ∃ o bb, nextLabel q off = (o, bb) := ⟨_, _, rfl⟩
              rw [hnl] at h ⊢
              cases b with
              | true =>
                  injection h with h1 _
                  show dsf = (match (List.map (fun c => (off, c)) es).getLast? with
                    | some e => some e.2
                    | none => ds)
                  rw [h1.symm, hds2, getLast?_map]
                  cases hg : es.getLast? with
                  | none => rfl
                  | some x => rfl
              | false =>
                  have hrec := ih off2 ctx2' ds2 dsf ctxf h
                  show dsf = (match (List.map (fun c => (off, c)) es ++
                      (walkAuxEv zones req true q f off2 ctx2' ds2).2).getLast? with
                    | some e => some e.2
                    | none => ds)
                  cases hr : (walkAuxEv zones req true q f off2 ctx2' ds2).2 with
                  | nil =>
                      rw [hr] at hrec
                      rw [List.append_nil, getLast?_map]
                      rw [hds2] at hrec
                      cases hg : es.getLast? with
                      | none => rw [hg] at hrec; exact hrec
                      | some x => rw [hg] at hrec; exact hrec
                  | cons e' t' =>
                      rw [hr] at hrec
                      rw [getLast?_append_right _ _ (List.cons_ne_nil e' t')]
                      cases hg : (e' :: t').getLast? with
                      | none =>
                          have hs := List.getLast?_isSome.mpr (List.cons_ne_nil e' t')
                          rw [hg] at hs
                          exact absurd hs (by simp)
                      | some x =>
                          rw [hg] at hrec
                          exact hrec

theorem resolve_of_walk_dispatched (s : Server) (req : ReqInfo) (q0 : Question)
    (c : Config) (ctx2 : Ctx)
    (hclass : s.classChaos = true ∨ q0.qclass = ClassINET)
    (hedns : req.badEdns = false)
    (hw : walk s.zones req (decide (q0.qtype = TypeDS)) (strToLower q0.name) 0 [] none =
      .dispatched c ctx2) :
    resolve s req q0 = .run .walkHit c ctx2 := by
  unfold resolve
  rw [if_neg (by rcases hclass with h | h <;> simp [h])]
  rw [if_neg (by simp [hedns])]
  rw [hw]

theorem resolve_of_walk_dsCandidate (s : Server) (req : ReqInfo) (q0 : Question)
    (dh : Config) (ctx2 : Ctx)
    (hclass : s.classChaos = true ∨ q0.qclass = ClassINET)
    (hedns : req.badEdns = false)
    (hds : q0.qtype = TypeDS)
    (hchain : dh.pluginChain.isSome = true)
    (hw : walk s.zones req (decide (q0.qtype = TypeDS)) (strToLower q0.name) 0 [] none =
      .fellThrough (some dh) ctx2) :
    resolve s req q0 = .run .dsCandidate dh ctx2 := by
  unfold resolve
  rw [if_neg (by rcases hclass with h | h <;> simp [h])]
  rw [if_neg (by simp [hedns])]
  rw [hw]
  dsimp only
  rw [if_pos ⟨hds, hchain⟩]

/-- C1: the zone-resolution multiplexer. The instrumented walk records the
(offset, config) passing matches in visit order; its outcome coincides
with the plain walk. Every recorded match lies at a label-aligned suffix
of the query registered in the zones map, the recorded offsets are
monotone (so earlier matches have longer suffixes), a non-DS walk
dispatches exactly its first passing match (the longest passing suffix;
later suffixes are never consulted once one passes) and records nothing
when it falls through, while a DS walk never dispatches during the walk
and falls through carrying its last recorded passing match (the
shortest-suffix passing match), which resolve then dispatches as the DS
candidate; a non-DS dispatch is surfaced by resolve as the walk-hit
dispatch of the lower-cased name, provided the class and EDNS admission
checks pass. -/
theorem c1_longest_suffix_selection :
    (∀ (zones : List (String × List Config)) (req : ReqInfo) (isDS : Bool) (q : String)
        (off : Nat) (ctx : Ctx) (ds : Option Config),
      (walkEv zones req isDS q off ctx ds).1 = walk zones req isDS q off ctx ds
      ∧ (∀ e ∈ (walkEv zones req isDS q off ctx ds).2,
          off ≤ e.1 ∧ ∃ z, zonesLookup zones (suffixFrom q e.1) = some z ∧ e.2 ∈ z
            ∧ e.2.pluginChain.isSome = true)
      ∧ List.Pairwise (fun a b => a.1 ≤ b.1) (walkEv zones req isDS q off ctx ds).2)
    ∧ (∀ (zones : List (String × List Config)) (req : ReqInfo) (q : String)
        (off : Nat) (ctx : Ctx) (ds : Option Config) (c : Config) (ctx2 : Ctx),
        walk zones req false q off ctx ds = .dispatched c ctx2 →
        (walkEv zones req false q off ctx ds).2.map Prod.snd = [c])
    ∧ (∀ (zones : List (String × List Config)) (req : ReqInfo) (q : String)
        (off : Nat) (ctx : Ctx) (ds dsf : Option Config) (ctxf : Ctx),
        walk zones req false q off ctx ds = .fellThrough dsf ctxf →
        (walkEv zones req false q off ctx ds).2 = [] ∧ dsf = ds)
    ∧ (∀ (zones : List (String × List Config)) (req : ReqInfo) (q : String)
        (off : Nat) (ctx : Ctx) (ds : Option Config) (c : Config) (ctx2 : Ctx),
        walk zones req true q off ctx ds ≠ .dispatched c ctx2)
    ∧ (∀ (zones : List (String × List Config)) (req : ReqInfo) (q : String)
        (off : Nat) (ctx : Ctx) (ds dsf : Option Config) (ctxf : Ctx),
        walk zones req true q off ctx ds = .fellThrough dsf ctxf →
        dsf = (match (walkEv zones req true q off ctx ds).2.getLast? with
               | some e => some e.2
               | none => ds))
    ∧ (∀ (s : Server) (req : ReqInfo) (q0 : Question) (c : Config) (ctx2 : Ctx),
        (s.classChaos = true ∨ q0.qclass = ClassINET) → req.badEdns = false →
        walk s.zones req (decide (q0.qtype = TypeDS)) (strToLower q0.name) 0 [] none =
          .dispatched c ctx2 →
        resolve s req q0 = .run .walkHit c ctx2)
    ∧ (∀ (s : Server) (req : ReqInfo) (q0 : Question) (dh : Config) (ctx2 : Ctx),
        (s.classChaos = true ∨ q0.qclass = ClassINET) → req.badEdns = false →
        q0.qtype = TypeDS → dh.pluginChain.isSome = true →
        walk s.zones req (decide (q0.qtype = TypeDS)) (strToLower q0.name) 0 [] none =
          .fellThrough (some dh) ctx2 →
        resolve s req q0 = .run .dsCandidate dh ctx2) := by
  refine ⟨?_, ?_, ?_, ?_, ?_, ?_, ?_⟩
  · intro zones req isDS q off ctx ds
    exact ⟨walkAuxEv_fst zones req isDS q (q.data.length + 1) off ctx ds,
      walkAuxEv_mem zones req isDS q (q.data.length + 1) off ctx ds,
      walkAuxEv_sorted zones req isDS q (q.data.length + 1) off ctx ds⟩
  · intro zones req q off ctx ds c ctx2 hw
    exact walkAuxEv_nonDS_dispatch zones req q (q.data.length + 1) off ctx ds c ctx2
      ((walkAuxEv_fst zones req false q (q.data.length + 1) off ctx ds).trans hw)
  · intro zones req q off ctx ds dsf ctxf hw
    exact walkAuxEv_nonDS_fellThrough zones req q (q.data.length + 1) off ctx ds dsf ctxf
      ((walkAuxEv_fst zones req false q (q.data.length + 1) off ctx ds).trans hw)
  · intro zones req q off ctx ds c ctx2 hw
    exact walkAuxEv_DS_no_dispatch zones req q (q.data.length + 1) off ctx ds c ctx2
      ((walkAuxEv_fst zones req true q (q.data.length + 1) off ctx ds).trans hw)
  · intro zones req q off ctx ds dsf ctxf hw
    exact walkAuxEv_DS_fellThrough zones req q (q.data.length + 1) off ctx ds dsf ctxf
      ((walkAuxEv_fst zones req true q (q.data.length + 1) off ctx ds).trans hw)
  · intro s req q0 c ctx2 hclass hedns hw
    exact resolve_of_walk_dispatched s req q0 c ctx2 hclass hedns hw
  · intro s req q0 dh ctx2 hclass hedns hds hchain hw
    exact resolve_of_walk_dsCandidate s req q0 dh ctx2 hclass hedns hds hchain hw

def c1siteA : Config := plainSite "example.com." [constHandler "a" 0]

def c1srv : Server := NewServer "dns://.:53" [c1siteA, plainSite "." [constHandler "b" 0]]

def c1req : ReqInfo := mkReq "www.example.com." TypeA ClassINET

/-- Witness for c1_longest_suffix_selection: querying www.example.com.
against zones example.com. and the root, the walk dispatches the
example.com. config and its event list records exactly that single
passing match. -/
theorem c1_witness :
    (walkEv c1srv.zones c1req false "www.example.com." 0 [] none).2.map Prod.snd =
      [compiledSite c1siteA none false] :=
  c1_longest_suffix_selection.2.1 c1srv.zones c1req "www.example.com." 0 [] none
    (compiledSite c1siteA none false) [] rfl

end CoreDnsServer
